import Mathlib

/-!
Verification development for the LomoKino film-strip processor
(src/lomokino_processor.py).  The Python class LomoKinoProcessor is
shallowly embedded: pure list/arithmetic logic is translated directly;
the OpenCV/numpy vision primitives (Canny + HoughLines, the smoothed
brightness-valley test, grayscale conversion) are abstracted as oracle
fields of the image value, while every filter, merge, threshold and
fallback decision of the Python source is written out explicitly.
Machine floats of the source (expressions such as int(height * 0.12))
are modelled by exact rational/integer arithmetic; binary rounding of
the Python floats can differ by one on isolated sizes, which is
immaterial to the properties stated here.  A Python call that raises
(cv2.cvtColor on an empty image, ZeroDivisionError on the aspect
ratio, ValueError from a zero range step, cv2.resize on a zero target
size) is modelled as the value none / an aborted trace.
-/

namespace LomoKino

/-- Detection sensitivity, the four values of the
detection_sensitivity constructor argument. -/
inductive Sens where
  | auto
  | low
  | medium
  | high
  deriving DecidableEq

/-- Constructor configuration of LomoKinoProcessor that detect_frames
reads: the optional min_frame_distance and the detection_sensitivity.
The frame_height field is mutable state and is threaded separately. -/
structure DetectConfig where
  min_frame_distance : Option ℤ
  detection_sensitivity : Sens

/-- Abstraction of a decoded 3-channel image as far as detect_frames
inspects it.  height and width are gray.shape.  hough p is the list of
y = int(rho / sin theta) values of the near-horizontal lines
(abs(theta - pi/2) < 0.25) that cv2.Canny + cv2.HoughLines report for
the p-th Canny parameter pair; the 0 < y < height filter of the source
is kept explicit in houghCandidates.  isValley i abstracts the
smoothed-brightness percentile test of method 2 for row i; the range
of scanned rows is kept explicit in valleyCandidates.  Both oracles
are fixed functions of the image value, matching the determinism of
the cv2/numpy calls. -/
structure ImageData where
  height : ℕ
  width : ℕ
  hough : ℕ → List ℤ
  isValley : ℕ → Bool

/-- Sensitivity resolution, lines 27-37 of detect_frames. -/
def resolveSensitivity (cfg : DetectConfig) (height width : ℕ) : Sens :=
  match cfg.detection_sensitivity with
  | Sens.auto =>
      if width < 500 ∧ height < 1000 then Sens.medium
      else if width < 800 ∨ height < 1500 then Sens.medium
      else Sens.high
  | s => s

/-- Effective sensitivity of one detect_frames call. -/
def effSens (cfg : DetectConfig) (img : ImageData) : Sens :=
  resolveSensitivity cfg img.height img.width

/-- Minimum separator distance, lines 40-50: the explicit override if
set, otherwise derived from the sensitivity (the final catch-all
branch of the Python if/elif chain is the high branch). -/
def minDistance (cfg : DetectConfig) (sens : Sens) (height : ℕ) : ℤ :=
  match cfg.min_frame_distance with
  | some d => d
  | none =>
      match sens with
      | Sens.low => ((max (height * 12 / 100) 60 : ℕ) : ℤ)
      | Sens.medium => ((max (height * 10 / 100) 50 : ℕ) : ℤ)
      | _ => ((max (height * 8 / 100) 40 : ℕ) : ℤ)

/-- Minimum separator distance of one detect_frames call. -/
def effMinDist (cfg : DetectConfig) (img : ImageData) : ℤ :=
  minDistance cfg (effSens cfg img) img.height

/-- Number of Canny parameter pairs tried, lines 56-65 (low one pair,
medium two, the catch-all branch three). -/
def numPasses : Sens → ℕ
  | Sens.low => 1
  | Sens.medium => 2
  | _ => 3

/-- Line candidates of method 1, lines 67-79: the near-horizontal line
y-coordinates of every Canny pass, kept only when 0 < y < height. -/
def houghCandidates (img : ImageData) (sens : Sens) : List ℤ :=
  ((List.range (numPasses sens)).flatMap img.hough).filter
    (fun y => decide (0 < y ∧ y < (img.height : ℤ)))

/-- Insertion into a sorted list, auxiliary for sortList. -/
def insertSorted [LinearOrder α] (x : α) : List α → List α
  | [] => [x]
  | y :: ys => if x ≤ y then x :: y :: ys else y :: insertSorted x ys

/-- Insertion sort, modelling the sorted(...) builtin. -/
def sortList [LinearOrder α] (l : List α) : List α :=
  l.foldr insertSorted []

/-- Insertion into a strictly sorted list dropping duplicates,
auxiliary for sortDedup. -/
def insertDedup [LinearOrder α] (x : α) : List α → List α
  | [] => [x]
  | y :: ys =>
      if x < y then x :: y :: ys
      else if x = y then y :: ys
      else y :: insertDedup x ys

/-- Strictly sorted duplicate-free enumeration, modelling
sorted(list(set(...))) of lines 82 and 126. -/
def sortDedup [LinearOrder α] (l : List α) : List α :=
  l.foldr insertDedup []

/-- Tail of the greedy merge of lines 87-91: keep a candidate only
when it exceeds the previously kept one by more than d. -/
def mergeGo (d : ℤ) (last : ℤ) : List ℤ → List ℤ
  | [] => []
  | x :: xs => if d < x - last then x :: mergeGo d x xs else mergeGo d last xs

/-- Greedy minimum-distance merge of lines 85-93 (and again 129-136):
keep the first candidate, then each candidate whose distance to the
previously kept one exceeds d. -/
def mergeSeps (d : ℤ) : List ℤ → List ℤ
  | [] => []
  | x :: xs => x :: mergeGo d x xs

/-- Separators surviving method 1: candidates deduplicated, sorted and
greedily merged (lines 82-93). -/
def method1 (cfg : DetectConfig) (img : ImageData) : List ℤ :=
  mergeSeps (effMinDist cfg img)
    (sortDedup (houghCandidates img (effSens cfg img)))

/-- Search window of method 2, line 111. -/
def searchWindow (height : ℕ) : ℕ := max (height * 8 / 100) 30

/-- Row candidates of method 2, lines 114-123: every row i of
range(search_window, height - search_window) passing the smoothed
brightness-valley test (the test itself is the isValley oracle). -/
def valleyCandidates (img : ImageData) : List ℤ :=
  ((List.range' (searchWindow img.height)
      (img.height - searchWindow img.height - searchWindow img.height)).filter
    img.isValley).map (fun (i : ℕ) => (i : ℤ))

/-- Separators after methods 1 and 2, lines 52-136: method 2 runs only
at high sensitivity when method 1 kept fewer than 3 separators, and
re-merges its candidates together with the survivors of method 1. -/
def method12 (cfg : DetectConfig) (img : ImageData) : List ℤ :=
  if effSens cfg img = Sens.high ∧ (method1 cfg img).length < 3 then
    mergeSeps (effMinDist cfg img)
      (sortDedup (method1 cfg img ++ valleyCandidates img))
  else method1 cfg img

/-- Frame-count estimate of the uniform-grid fallback, lines 141-152,
classifying the aspect ratio height / width.  The comparisons
height / width > 6, > 4, > 2.5 are written cross-multiplied
(6 * width < height, 4 * width < height, 5 * width < 2 * height),
which is exact for positive width.  The Python float division raises
ZeroDivisionError for width = 0; detect_frames guards that case
before calling this. -/
def estimatedFrames (img : ImageData) : ℕ :=
  if 6 * img.width < img.height then 8
  else if 4 * img.width < img.height then 6
  else if 5 * img.width < 2 * img.height then 4
  else 3

/-- Uniform grid list(range(0, height, fh)) of line 157 for a nonzero
step: empty for a negative step, the multiples of fh below height for
a positive one.  The fh = 0 case raises ValueError in Python and is
handled in detect_frames. -/
def gridSeps (height : ℕ) (fh : ℤ) : List ℤ :=
  if fh ≤ 0 then []
  else (List.range ((height + fh.toNat - 1) / fh.toNat)).map (fun (i : ℕ) => (i : ℤ) * fh)

/-- Boundary normalization of lines 160-163: insert 0 in front when
missing, append height when missing. -/
def normalizeSeps (l : List ℤ) (height : ℕ) : List ℤ :=
  let l2 := if (0 : ℤ) ∈ l then l else 0 :: l
  if (height : ℤ) ∈ l2 then l2 else l2 ++ [(height : ℤ)]

/-- Frame height used by the uniform-grid fallback, lines 154-156: the
cached/explicit self.frame_height when set, otherwise
height // estimated_frames (which the fallback then caches). -/
def fallbackHeight (st : Option ℤ) (img : ImageData) : ℤ :=
  st.getD ((img.height / estimatedFrames img : ℕ) : ℤ)

/-- The detect_frames method, lines 22-165.  st is the mutable
self.frame_height field before the call; the result carries the field
after the call together with the returned separator list, and is none
when the Python call raises: cv2.cvtColor rejects an empty image, and
in the uniform-grid fallback width = 0 raises ZeroDivisionError while
a zero frame height raises ValueError in range. -/
def detect_frames (st : Option ℤ) (cfg : DetectConfig) (img : ImageData) :
    Option (Option ℤ × List ℤ) :=
  if img.height = 0 ∨ img.width = 0 then none
  else if (method12 cfg img).length < 2 then
    if fallbackHeight st img = 0 then none
    else
      some (some (fallbackHeight st img),
        normalizeSeps (gridSeps img.height (fallbackHeight st img)) img.height)
  else some (st, normalizeSeps (method12 cfg img) img.height)

/-- Width of a pixel grid, numpy shape[1]: the length of the first
row (a decoded image is rectangular, so this is every row).  Pixels
are the grayscale uint8 values, carried as naturals. -/
def gridW (g : List (List ℕ)) : ℕ :=
  match g with
  | [] => 0
  | r :: _ => r.length

/-- Rectangular slice g[y1:y2, x1:x2] of a pixel grid, for the
in-bounds nonnegative indices the processor produces. -/
def sliceGrid (g : List (List ℕ)) (y1 y2 x1 x2 : ℕ) : List (List ℕ) :=
  ((g.drop y1).take (y2 - y1)).map (fun row => (row.drop x1).take (x2 - x1))

/-- Per-row totals.  The source works with the row means
np.mean(gray, axis=1) = rowSum / W (line 174); since every row of a
rectangular frame has the same positive length W, every comparison on
means below is written cross-multiplied on the sums, which is
exact. -/
def rowSums (g : List (List ℕ)) : List ℕ :=
  g.map List.sum

/-- Per-column totals, for the column means np.mean(gray, axis=0) =
colSum / H of line 204. -/
def colSums (g : List (List ℕ)) : List ℕ :=
  (List.transpose g).map List.sum

/-- Maximum of a list, np.max; Python raises on an empty array, which
the callers exclude, so the empty case is arbitrary. -/
def listMax : List ℕ → ℕ
  | [] => 0
  | x :: xs => xs.foldl max x

/-- Percentage numerator of the brightness threshold of one axis,
lines 180-187 and 208-214.  The source compares the mean of the axis
means with 30 and 60; for an H x W rectangle that mean is
(sum of all pixels) / (H * W), so mean < c is written
total < c * cells with cells = H * W, which is exact.  The threshold
itself is max_mean * pct / 100. -/
def axisPct (total cells : ℕ) : ℕ :=
  if total < 30 * cells then 5
  else if total < 60 * cells then 8
  else 12

/-- Scan from the low edge, lines 190-194 and 217-221: the first index
whose mean exceeds the threshold, minus 3 of padding (clamped at 0,
which is Nat subtraction); 0 when no index qualifies.  The comparison
mean > (pct/100) * max_mean is written 100 * sum > pct * maxSum,
exact because both means share the same positive denominator. -/
def scanLow (sums : List ℕ) (pct maxS : ℕ) : ℕ :=
  match sums.findIdx? (fun s => decide (pct * maxS < 100 * s)) with
  | some i => i - 3
  | none => 0

/-- Scan from the high edge, lines 197-201 and 224-228: the last index
whose mean exceeds the threshold, plus 4 of padding (clamped at size);
size when no index qualifies.  The last qualifying index is
size - 1 - j for j the first qualifying index of the reversed list. -/
def scanHigh (sums : List ℕ) (pct maxS : ℕ) (size : ℕ) : ℕ :=
  match sums.reverse.findIdx? (fun s => decide (pct * maxS < 100 * s)) with
  | some j => min size (size - 1 - j + 4)
  | none => size

/-- Raw scanned rectangle (top, bottom, left, right) of
detect_content_boundaries before the validity and 60 percent checks,
lines 169-228. -/
def rawBoundaries (g : List (List ℕ)) : ℕ × ℕ × ℕ × ℕ :=
  let cells := g.length * gridW g
  let rs := rowSums g
  let rpct := axisPct rs.sum cells
  let cs := colSums g
  let cpct := axisPct cs.sum cells
  (scanLow rs rpct (listMax rs), scanHigh rs rpct (listMax rs) g.length,
   scanLow cs cpct (listMax cs), scanHigh cs cpct (listMax cs) (gridW g))

/-- One axis of the keep-at-least-60-percent check, lines 236-247:
fall back to the full extent when the kept ratio is below 0.6.  The
ratio test (b - t) / size < 0.6 is written 10 * (b - t) < 6 * size,
exact for positive size. -/
def trimAxis (t b size : ℕ) : ℕ × ℕ :=
  if 10 * (b - t) < 6 * size then (0, size) else (t, b)

/-- The detect_content_boundaries method, lines 167-249, on the
grayscale plane of the frame: the raw scan, then the full region for a
degenerate rectangle, then the per-axis 60 percent fallback.  Python
raises (cv2.cvtColor, np.max) on an empty frame; the callers and the
stated properties keep the frame nonempty. -/
def detect_content_boundaries (g : List (List ℕ)) : ℕ × ℕ × ℕ × ℕ :=
  let r := rawBoundaries g
  if r.2.1 ≤ r.1 ∨ r.2.2.2 ≤ r.2.2.1 then (0, g.length, 0, gridW g)
  else
    let tb := trimAxis r.1 r.2.1 g.length
    let lr := trimAxis r.2.2.1 r.2.2.2 (gridW g)
    (tb.1, tb.2, lr.1, lr.2)

/-- Rough band of one separator pair, lines 258-279: shrink the band
by padding = int(3 percent of its height) on both sides, and crop the
columns to [8 percent, 92 percent) of the width. -/
def roughBand (image : List (List ℕ)) (y1 y2 : ℕ) : List (List ℕ) :=
  let padding := (y2 - y1) * 3 / 100
  sliceGrid image (y1 + padding) (min image.length (y2 - padding))
    (gridW image * 8 / 100) (gridW image * 92 / 100)

/-- Content crop of a rough frame, lines 283-287: the rectangle that
detect_content_boundaries reports. -/
def contentCrop (rough : List (List ℕ)) : List (List ℕ) :=
  sliceGrid rough (detect_content_boundaries rough).1
    (detect_content_boundaries rough).2.1
    (detect_content_boundaries rough).2.2.1
    (detect_content_boundaries rough).2.2.2

/-- Loop body of extract_frames for one separator pair, lines 261-302:
none when the band is dropped (too thin, or an empty rough crop), some
frame when a frame is appended.  The 20 percent comparison
final > rough * 0.2 is written rough < 5 * final exactly. -/
def processBand (image : List (List ℕ)) (y1 y2 : ℕ) : Option (List (List ℕ)) :=
  let padding := (y2 - y1) * 3 / 100
  let y1p := y1 + padding
  let y2p := min image.length (y2 - padding)
  if max (image.length * 8 / 100) 40 < y2p - y1p then
    if 0 < (roughBand image y1 y2).length ∧ 0 < gridW (roughBand image y1 y2) then
      if (detect_content_boundaries (roughBand image y1 y2)).1 <
            (detect_content_boundaries (roughBand image y1 y2)).2.1 ∧
          (detect_content_boundaries (roughBand image y1 y2)).2.2.1 <
            (detect_content_boundaries (roughBand image y1 y2)).2.2.2 then
        if (roughBand image y1 y2).length < 5 * (contentCrop (roughBand image y1 y2)).length ∧
            gridW (roughBand image y1 y2) < 5 * gridW (contentCrop (roughBand image y1 y2)) then
          some (contentCrop (roughBand image y1 y2))
        else some (roughBand image y1 y2)
      else some (roughBand image y1 y2)
    else none
  else none

/-- The extract_frames method, lines 251-304: the kept frames of every
consecutive separator pair, in band order. -/
def extract_frames (image : List (List ℕ)) (seps : List ℕ) : List (List (List ℕ)) :=
  (seps.zip seps.tail).filterMap (fun p => processBand image p.1 p.2)

/-- Twice the np.median of a list of sizes, an integer: twice the
middle element of the sorted list for odd length, the sum of the two
middle elements for even length. -/
def npMedianTwice (l : List ℕ) : ℕ :=
  let s := sortList l
  if s.length % 2 = 1 then 2 * s.getD (s.length / 2) 0
  else s.getD (s.length / 2 - 1) 0 + s.getD (s.length / 2) 0

/-- Median of a list of sizes, np.median, as the exact rational. -/
def npMedian (l : List ℕ) : ℚ :=
  (npMedianTwice l : ℚ) / 2

/-- Target dimension of create_video, lines 318-325: the median
truncated to int (the floor npMedianTwice / 2, since the median is
nonnegative), raised by one when odd. -/
def targetDim (l : List ℕ) : ℕ :=
  let m := npMedianTwice l / 2
  if m % 2 = 1 then m + 1 else m

/-- Modelled from the spec: the spec words the target size as the
median rounded up to the nearest even number, i.e. the least even
integer at least the median; written here for comparison with the
targetDim computed by the source. -/
def specRoundUpEven (q : ℚ) : ℤ := 2 * ⌈q / 2⌉

/-- Resized size int(w * scale), int(h * scale) of lines 338-341 with
scale = min(tw / w, th / h), written exactly on integers for
w, h > 0: when tw / w <= th / h (i.e. tw * h <= th * w) the scale is
tw / w, so the new width is exactly tw and the new height is
floor(h * tw / w); symmetrically otherwise. -/
def resizedDims (tw th h w : ℕ) : ℕ × ℕ :=
  if tw * h ≤ th * w then (tw, h * tw / w) else (w * th / h, th)

/-- Per-frame loop of create_video, lines 334-356, on the frame
shapes (height, width).  Returns the (new_w, new_h, x_offset,
y_offset) geometry of every canvas written before the loop ends,
paired with true when the loop aborts by raising: a zero frame
dimension raises ZeroDivisionError in the scale, and a zero resized
dimension raises in cv2.resize.  The Python offsets are (target -
new) // 2; new_w <= target_width and new_h <= target_height always
hold (proved below), so Nat subtraction is faithful. -/
def processFrames (tw th : ℕ) : List (ℕ × ℕ) → List (ℕ × ℕ × ℕ × ℕ) × Bool
  | [] => ([], false)
  | (h, w) :: rest =>
    if h = 0 ∨ w = 0 then ([], true)
    else
      let nw := (resizedDims tw th h w).1
      let nh := (resizedDims tw th h w).2
      if nw = 0 ∨ nh = 0 then ([], true)
      else
        ((nw, nh, (tw - nw) / 2, (th - nh) / 2) :: (processFrames tw th rest).1,
         (processFrames tw th rest).2)

/-- Observable trace of one create_video call: the VideoWriter target
size if a writer was constructed, the geometry of the canvases
written, whether out.release() ran, and the returned value (none when
the call raises). -/
structure VideoTrace where
  opened : Option (ℕ × ℕ)
  writes : List (ℕ × ℕ × ℕ × ℕ)
  released : Bool
  result : Option Bool

/-- The create_video method, lines 306-360, on the frame shapes
(height, width): an empty frame list returns False before any writer
exists; otherwise the writer is constructed with the even-rounded
median target size, the frames are processed in order, and
out.release() runs only when the loop completes (the source has no
try/finally, so an exception inside the loop propagates with the
writer still open). -/
def create_video (frames : List (ℕ × ℕ)) (fps : ℕ) : VideoTrace :=
  if frames.isEmpty then ⟨none, [], false, some false⟩
  else
    ⟨some (targetDim (frames.map Prod.snd), targetDim (frames.map Prod.fst)),
     (processFrames (targetDim (frames.map Prod.snd)) (targetDim (frames.map Prod.fst)) frames).1,
     !(processFrames (targetDim (frames.map Prod.snd)) (targetDim (frames.map Prod.fst)) frames).2,
     if (processFrames (targetDim (frames.map Prod.snd)) (targetDim (frames.map Prod.fst)) frames).2
     then none else some true⟩

/-- The process_multiple_images method, lines 407-421: files is the
sorted glob result, processOne abstracts process_image (lines 362-405,
whose file and image handling is I/O) as a state transformer on the
processor state returning the per-image success flag.  The source
ignores that flag and returns True whenever files is nonempty. -/
def process_multiple_images {σ α : Type} (processOne : σ → α → σ × Bool)
    (st : σ) (files : List α) : σ × Bool :=
  if files.isEmpty then (st, false)
  else (files.foldl (fun s f => (processOne s f).1) st, true)

/-! Helper lemmas about the sorting and merging primitives. -/

theorem mem_insertDedup [LinearOrder α] (x a : α) (l : List α) :
    a ∈ insertDedup x l ↔ a = x ∨ a ∈ l := by
  induction l with
  | nil => simp [insertDedup]
  | cons y ys ih =>
    simp only [insertDedup]
    split
    · simp [List.mem_cons]
    · split
      · rename_i h1 h2
        subst h2
        simp [List.mem_cons]
      · simp [List.mem_cons, ih]
        tauto

theorem sorted_insertDedup [LinearOrder α] (x : α) (l : List α)
    (h : l.Sorted (· < ·)) : (insertDedup x l).Sorted (· < ·) := by
  induction l with
  | nil => simp [insertDedup]
  | cons y ys ih =>
    rw [List.sorted_cons] at h
    obtain ⟨hy, hys⟩ := h
    simp only [insertDedup]
    split
    · rename_i hxy
      rw [List.sorted_cons]
      refine ⟨?_, List.sorted_cons.mpr ⟨hy, hys⟩⟩
      intro b hb
      rcases List.mem_cons.mp hb with rfl | hb
      · exact hxy
      · exact lt_trans hxy (hy b hb)
    · split
      · exact List.sorted_cons.mpr ⟨hy, hys⟩
      · rename_i h1 h2
        have hyx : y < x := lt_of_le_of_ne (le_of_not_lt h1) (Ne.symm h2)
        rw [List.sorted_cons]
        refine ⟨?_, ih hys⟩
        intro b hb
        rcases (mem_insertDedup x b ys).mp hb with rfl | hb
        · exact hyx
        · exact hy b hb

theorem sorted_sortDedup [LinearOrder α] (l : List α) :
    (sortDedup l).Sorted (· < ·) := by
  induction l with
  | nil => exact List.sorted_nil
  | cons x xs ih => exact sorted_insertDedup x _ ih

theorem mem_sortDedup [LinearOrder α] (a : α) (l : List α) :
    a ∈ sortDedup l ↔ a ∈ l := by
  induction l with
  | nil => simp [sortDedup]
  | cons x xs ih =>
    show a ∈ insertDedup x (sortDedup xs) ↔ _
    rw [mem_insertDedup]
    simp [ih]

theorem mergeGo_sublist (d : ℤ) (l : List ℤ) :
    ∀ last, (mergeGo d last l).Sublist l := by
  induction l with
  | nil => intro last; simp [mergeGo]
  | cons x xs ih =>
    intro last
    simp only [mergeGo]
    split
    · exact (ih x).cons₂ x
    · exact (ih last).cons x

theorem mergeSeps_sublist (d : ℤ) (l : List ℤ) : (mergeSeps d l).Sublist l := by
  cases l with
  | nil => simp [mergeSeps]
  | cons x xs => exact (mergeGo_sublist d xs x).cons₂ x

theorem chain'_cons_mergeGo (d : ℤ) (l : List ℤ) :
    ∀ last, List.Chain' (fun a b => d < b - a) (last :: mergeGo d last l) := by
  induction l with
  | nil => intro last; simp [mergeGo]
  | cons x xs ih =>
    intro last
    simp only [mergeGo]
    split
    · rename_i hx
      exact List.Chain'.cons hx (ih x)
    · exact ih last

theorem chain'_mergeSeps (d : ℤ) (l : List ℤ) :
    List.Chain' (fun a b => d < b - a) (mergeSeps d l) := by
  cases l with
  | nil => simp [mergeSeps]
  | cons x xs => exact chain'_cons_mergeGo d xs x

/-! Helper lemmas about the separator candidates. -/

theorem houghCandidates_bounds (img : ImageData) (sens : Sens) :
    ∀ x ∈ houghCandidates img sens, 0 < x ∧ x < (img.height : ℤ) := by
  intro x hx
  simp only [houghCandidates, List.mem_filter] at hx
  exact of_decide_eq_true hx.2

theorem valleyCandidates_bounds (img : ImageData) :
    ∀ x ∈ valleyCandidates img, 0 < x ∧ x < (img.height : ℤ) := by
  intro x hx
  unfold valleyCandidates at hx
  obtain ⟨i, hif, rfl⟩ := List.mem_map.mp hx
  have hir := (List.mem_filter.mp hif).1
  rw [List.mem_range'_1] at hir
  have h30 : 30 ≤ searchWindow img.height := le_max_right _ _
  have hi : 0 < i ∧ i < img.height := by omega
  exact ⟨by exact_mod_cast hi.1, by exact_mod_cast hi.2⟩

theorem method1_bounds (cfg : DetectConfig) (img : ImageData) :
    ∀ x ∈ method1 cfg img, 0 < x ∧ x < (img.height : ℤ) := by
  intro x hx
  have hx2 := (mergeSeps_sublist _ _).subset hx
  rw [mem_sortDedup] at hx2
  exact houghCandidates_bounds img _ x hx2

theorem method12_bounds (cfg : DetectConfig) (img : ImageData) :
    ∀ x ∈ method12 cfg img, 0 < x ∧ x < (img.height : ℤ) := by
  intro x hx
  unfold method12 at hx
  split at hx
  · have hx2 := (mergeSeps_sublist _ _).subset hx
    rw [mem_sortDedup, List.mem_append] at hx2
    rcases hx2 with h | h
    · exact method1_bounds cfg img x h
    · exact valleyCandidates_bounds img x h
  · exact method1_bounds cfg img x hx

theorem method1_sorted (cfg : DetectConfig) (img : ImageData) :
    (method1 cfg img).Sorted (· < ·) :=
  List.Pairwise.sublist (mergeSeps_sublist _ _) (sorted_sortDedup _)

theorem method12_sorted (cfg : DetectConfig) (img : ImageData) :
    (method12 cfg img).Sorted (· < ·) := by
  unfold method12
  split
  · exact List.Pairwise.sublist (mergeSeps_sublist _ _) (sorted_sortDedup _)
  · exact method1_sorted cfg img

theorem method12_gaps (cfg : DetectConfig) (img : ImageData) :
    List.Chain' (fun a b => effMinDist cfg img < b - a) (method12 cfg img) := by
  unfold method12
  split
  · exact chain'_mergeSeps _ _
  · exact chain'_mergeSeps _ _

/-! Helper lemmas about normalization and the uniform grid. -/

theorem normalizeSeps_shape (l : List ℤ) (h : ℕ) (hh : 1 ≤ h)
    (hb : ∀ x ∈ l, 0 < x ∧ x < (h : ℤ)) :
    normalizeSeps l h = 0 :: (l ++ [(h : ℤ)]) := by
  have h0 : (0 : ℤ) ∉ l := fun hc => absurd (hb 0 hc).1 (lt_irrefl 0)
  have hH : (h : ℤ) ∉ l := fun hc => absurd (hb _ hc).2 (lt_irrefl _)
  have hH0 : (h : ℤ) ≠ 0 := Nat.cast_ne_zero.mpr (by omega)
  simp [normalizeSeps, h0, hH, hH0]

theorem normalizeSeps_shape_mem0 (l : List ℤ) (h : ℕ) (h0 : (0 : ℤ) ∈ l)
    (hH : (h : ℤ) ∉ l) : normalizeSeps l h = l ++ [(h : ℤ)] := by
  simp [normalizeSeps, h0, hH]

theorem gridSeps_pos_eq (h : ℕ) (fh : ℤ) (hf : 0 < fh) :
    gridSeps h fh =
      (List.range ((h + fh.toNat - 1) / fh.toNat)).map (fun (i : ℕ) => (i : ℤ) * fh) := by
  simp [gridSeps, not_le.mpr hf]

theorem gridSeps_count (h f : ℕ) (hf : 0 < f) (hh : 1 ≤ h) :
    (h + f - 1) / f = (h - 1) / f + 1 := by
  have heq : h + f - 1 = (h - 1) + f := by omega
  rw [heq, Nat.add_div_right _ hf]

theorem gridSeps_zero_mem (h : ℕ) (fh : ℤ) (hf : 0 < fh) (hh : 1 ≤ h) :
    ∃ rest, gridSeps h fh = 0 :: rest := by
  rw [gridSeps_pos_eq h fh hf]
  have hft : 0 < fh.toNat := by omega
  rw [gridSeps_count h fh.toNat hft hh, List.range_succ_eq_map, List.map_cons]
  refine ⟨(List.map Nat.succ (List.range ((h - 1) / fh.toNat))).map
    (fun (i : ℕ) => (i : ℤ) * fh), ?_⟩
  norm_num

theorem gridSeps_bounds (h : ℕ) (fh : ℤ) (hf : 0 < fh) (hh : 1 ≤ h) :
    ∀ x ∈ gridSeps h fh, 0 ≤ x ∧ x ≤ (h : ℤ) - 1 := by
  rw [gridSeps_pos_eq h fh hf]
  intro x hx
  obtain ⟨i, hi, rfl⟩ := List.mem_map.mp hx
  rw [List.mem_range] at hi
  have hft : 0 < fh.toNat := by omega
  rw [gridSeps_count h fh.toNat hft hh] at hi
  have hile : i ≤ (h - 1) / fh.toNat := by omega
  have h1 : i * fh.toNat ≤ (h - 1) / fh.toNat * fh.toNat := Nat.mul_le_mul_right _ hile
  have h2 : (h - 1) / fh.toNat * fh.toNat ≤ h - 1 := Nat.div_mul_le_self _ _
  have h3 : i * fh.toNat ≤ h - 1 := le_trans h1 h2
  have hfh : (fh.toNat : ℤ) = fh := Int.toNat_of_nonneg (le_of_lt hf)
  constructor
  · exact mul_nonneg (Int.natCast_nonneg i) (le_of_lt hf)
  · calc (i : ℤ) * fh = ((i * fh.toNat : ℕ) : ℤ) := by rw [Nat.cast_mul, hfh]
      _ ≤ ((h - 1 : ℕ) : ℤ) := by exact_mod_cast h3
      _ ≤ (h : ℤ) - 1 := by omega

theorem gridSeps_chain (h : ℕ) (fh : ℤ) (hf : 0 < fh) :
    List.Chain' (· < ·) (gridSeps h fh) := by
  rw [gridSeps_pos_eq h fh hf, List.chain'_iff_pairwise]
  refine List.Pairwise.map _ ?_ (List.pairwise_lt_range _)
  intro a b hab
  have hab' : (a : ℤ) < b := by exact_mod_cast hab
  exact mul_lt_mul_of_pos_right hab' hf

/-! Helper lemmas assembling the final separator list properties. -/

theorem seps_props_of (l : List ℤ) (h : ℕ) (hh : 1 ≤ h)
    (hsort : l.Sorted (· < ·)) (hb : ∀ x ∈ l, 0 < x ∧ x < (h : ℤ)) :
    (normalizeSeps l h).head? = some 0 ∧
    (normalizeSeps l h).getLast? = some (h : ℤ) ∧
    List.Chain' (· < ·) (normalizeSeps l h) ∧ 2 ≤ (normalizeSeps l h).length := by
  rw [normalizeSeps_shape l h hh hb]
  refine ⟨rfl, ?_, ?_, ?_⟩
  · rw [show (0 : ℤ) :: (l ++ [(h : ℤ)]) = ((0 : ℤ) :: l) ++ [(h : ℤ)] by simp]
    exact List.getLast?_concat _
  · rw [List.chain'_iff_pairwise, List.pairwise_cons]
    constructor
    · intro b hbm
      rcases List.mem_append.mp hbm with h1 | h1
      · exact (hb b h1).1
      · simp only [List.mem_singleton] at h1
        subst h1
        exact_mod_cast hh
    · rw [List.pairwise_append]
      refine ⟨hsort, List.pairwise_singleton _ _, ?_⟩
      intro a ha b hbm
      simp only [List.mem_singleton] at hbm
      subst hbm
      exact (hb a ha).2
  · simp

theorem seps_props_grid (h : ℕ) (fh : ℤ) (hf : 0 < fh) (hh : 1 ≤ h) :
    (normalizeSeps (gridSeps h fh) h).head? = some 0 ∧
    (normalizeSeps (gridSeps h fh) h).getLast? = some (h : ℤ) ∧
    List.Chain' (· < ·) (normalizeSeps (gridSeps h fh) h) ∧
    2 ≤ (normalizeSeps (gridSeps h fh) h).length := by
  have hb := gridSeps_bounds h fh hf hh
  have hH : (h : ℤ) ∉ gridSeps h fh := fun hc => by
    have := (hb _ hc).2
    omega
  obtain ⟨rest, hr⟩ := gridSeps_zero_mem h fh hf hh
  have h0 : (0 : ℤ) ∈ gridSeps h fh := by rw [hr]; exact List.mem_cons_self _ _
  rw [normalizeSeps_shape_mem0 _ h h0 hH]
  refine ⟨?_, List.getLast?_concat _, ?_, ?_⟩
  · rw [hr]
    rfl
  · rw [List.chain'_iff_pairwise, List.pairwise_append]
    refine ⟨List.chain'_iff_pairwise.mp (gridSeps_chain h fh hf),
      List.pairwise_singleton _ _, ?_⟩
    intro a ha b hbm
    simp only [List.mem_singleton] at hbm
    subst hbm
    have := (hb a ha).2
    omega
  · rw [hr]
    simp

theorem estimatedFrames_bounds (img : ImageData) :
    3 ≤ estimatedFrames img ∧ estimatedFrames img ≤ 8 := by
  unfold estimatedFrames
  split
  · omega
  · split
    · omega
    · split
      · omega
      · omega

/-- C1 (corrected) counterexample: on a 1 x 2 pixel image with no
detectable lines and the default configuration, detect_frames reaches
the uniform-grid fallback, auto-computes frame height
2 // 3 = 0, and range(0, 2, 0) raises ValueError, so the call does
not return a separator sequence.  The claim that detect_frames never
raises for every image and configuration is therefore false. -/
theorem detect_frames_raises_on_tiny_image :
    detect_frames none ⟨none, Sens.auto⟩ ⟨2, 1, fun _ => [], fun _ => false⟩ = none := by
  decide

/-- C1 (amended): for every nonempty 3-channel image and every
configuration whose uniform-grid frame height cannot be zero (an
explicit frame_height override is nonzero, and when none is set the
image height is at least the largest frame-count estimate 8),
detect_frames terminates without raising and returns a separator
sequence that starts at 0, ends at the image height, is strictly
increasing, and has length at least 2. -/
theorem detect_frames_structure (st : Option ℤ) (cfg : DetectConfig) (img : ImageData)
    (hh : 1 ≤ img.height) (hw : 1 ≤ img.width)
    (hst : ∀ v, st = some v → v ≠ 0) (hnone : st = none → 8 ≤ img.height) :
    (detect_frames st cfg img).isSome = true ∧
    ∀ st2 seps, detect_frames st cfg img = some (st2, seps) →
      seps.head? = some 0 ∧ seps.getLast? = some (img.height : ℤ) ∧
      List.Chain' (· < ·) seps ∧ 2 ≤ seps.length := by
  have hguard : ¬(img.height = 0 ∨ img.width = 0) := by omega
  have hfhne : fallbackHeight st img ≠ 0 := by
    cases hst' : st with
    | some v =>
        have := hst v hst'
        simpa [fallbackHeight, hst'] using this
    | none =>
        have h8 := hnone hst'
        have hest := estimatedFrames_bounds img
        have hdiv : 1 ≤ img.height / estimatedFrames img :=
          (Nat.one_le_div_iff (by omega)).mpr (by omega)
        simp only [fallbackHeight, hst', Option.getD_none]
        exact_mod_cast Nat.one_le_iff_ne_zero.mp hdiv
  unfold detect_frames
  rw [if_neg hguard]
  by_cases hlen : (method12 cfg img).length < 2
  · rw [if_pos hlen, if_neg hfhne]
    refine ⟨rfl, ?_⟩
    intro st2 seps heq
    injection heq with hpair
    injection hpair with h1 h2
    subst h2
    rcases lt_trichotomy (fallbackHeight st img) 0 with hneg | hz | hpos
    · have hgrid : gridSeps img.height (fallbackHeight st img) = [] := by
        simp [gridSeps, le_of_lt hneg]
      rw [hgrid]
      exact seps_props_of [] img.height hh List.sorted_nil (by simp)
    · exact absurd hz hfhne
    · exact seps_props_grid img.height _ hpos hh
  · rw [if_neg hlen]
    refine ⟨rfl, ?_⟩
    intro st2 seps heq
    injection heq with hpair
    injection hpair with h1 h2
    subst h2
    exact seps_props_of _ img.height hh (method12_sorted cfg img) (method12_bounds cfg img)

/-- C1 witness: the amended theorem applied to a concrete 1 x 8 image
with no detected lines and the default configuration, whose grid
fallback uses frame height 1 and yields [0, 1, ..., 8]. -/
theorem detect_frames_structure_witness :
    (detect_frames none ⟨none, Sens.auto⟩
        ⟨8, 1, fun _ => [], fun _ => false⟩).isSome = true ∧
    List.Chain' (· < ·) [(0 : ℤ), 1, 2, 3, 4, 5, 6, 7, 8] := by
  have h := detect_frames_structure none ⟨none, Sens.auto⟩
    ⟨8, 1, fun _ => [], fun _ => false⟩ (by decide) (by decide)
    (fun v hv => Option.noConfusion hv) (fun _ => by decide)
  refine ⟨h.1, ?_⟩
  have h2 := h.2 (some 1) [0, 1, 2, 3, 4, 5, 6, 7, 8] (by decide)
  exact h2.2.2.1

/-- C8: calling detect_frames twice in succession on the same
processor state and image yields the same result: the first call
returns the post-call frame_height field st1 together with seps1, and
a second call starting from st1 returns exactly (st1, seps1) again;
in particular this covers the fallback path that auto-computes and
caches the frame height on first use. -/
theorem detect_frames_idempotent (st : Option ℤ) (cfg : DetectConfig) (img : ImageData)
    (st1 : Option ℤ) (seps1 : List ℤ)
    (h : detect_frames st cfg img = some (st1, seps1)) :
    detect_frames st1 cfg img = some (st1, seps1) := by
  unfold detect_frames at h ⊢
  by_cases hg : img.height = 0 ∨ img.width = 0
  · rw [if_pos hg] at h
    exact absurd h (by simp)
  rw [if_neg hg] at h ⊢
  by_cases hlen : (method12 cfg img).length < 2
  · rw [if_pos hlen] at h ⊢
    by_cases hz : fallbackHeight st img = 0
    · rw [if_pos hz] at h
      exact absurd h (by simp)
    · rw [if_neg hz] at h
      injection h with hpair
      injection hpair with h1 h2
      subst h1
      have hsame : fallbackHeight (some (fallbackHeight st img)) img =
          fallbackHeight st img := rfl
      rw [hsame, if_neg hz, h2]
  · rw [if_neg hlen] at h ⊢
    injection h with hpair
    injection hpair with h1 h2
    rw [h2]

/-- C8 witness: the idempotence theorem applied to the concrete
first call on a 1 x 8 blank image, which caches frame height 1; the
second call returns the identical separator sequence. -/
theorem detect_frames_idempotent_witness :
    detect_frames (some 1) ⟨none, Sens.auto⟩ ⟨8, 1, fun _ => [], fun _ => false⟩ =
      some (some 1, [0, 1, 2, 3, 4, 5, 6, 7, 8]) :=
  detect_frames_idempotent none ⟨none, Sens.auto⟩ ⟨8, 1, fun _ => [], fun _ => false⟩
    (some 1) [0, 1, 2, 3, 4, 5, 6, 7, 8] (by decide)

/-- C9: with AUTO configured, the resolved sensitivity is MEDIUM when
width < 500 and height < 1000, MEDIUM when width < 800 or
height < 1500, and HIGH otherwise; the AUTO path never resolves to
LOW. -/
theorem auto_sensitivity_never_low (cfg : DetectConfig) (height width : ℕ)
    (hauto : cfg.detection_sensitivity = Sens.auto) :
    resolveSensitivity cfg height width =
      (if width < 500 ∧ height < 1000 then Sens.medium
       else if width < 800 ∨ height < 1500 then Sens.medium
       else Sens.high) ∧
    resolveSensitivity cfg height width ≠ Sens.low := by
  unfold resolveSensitivity
  rw [hauto]
  refine ⟨rfl, ?_⟩
  by_cases h1 : width < 500 ∧ height < 1000
  · simp [h1]
  · by_cases h2 : width < 800 ∨ height < 1500
    · simp [h1, h2]
    · simp [h1, h2]

/-- C9 witness: the resolution theorem applied to a concrete AUTO
configuration on a 700 x 600 image (resolving to MEDIUM by the second
rule). -/
theorem auto_sensitivity_never_low_witness :
    resolveSensitivity ⟨none, Sens.auto⟩ 600 700 =
      (if (700 : ℕ) < 500 ∧ (600 : ℕ) < 1000 then Sens.medium
       else if (700 : ℕ) < 800 ∨ (600 : ℕ) < 1500 then Sens.medium
       else Sens.high) ∧
    resolveSensitivity ⟨none, Sens.auto⟩ 600 700 ≠ Sens.low :=
  auto_sensitivity_never_low ⟨none, Sens.auto⟩ 600 700 rfl

/-- C3 (corrected) counterexample: with explicit min_frame_distance 50
and explicit frame_height 10 on a blank 1 x 100 image, the
uniform-grid fallback returns separators 10 apart, so the interior
adjacent separators 10 and 20 do not differ by more than the
configured minimum distance 50; the claim fails for separator lists
produced by the grid fallback. -/
theorem grid_fallback_violates_min_distance :
    detect_frames (some 10) ⟨some 50, Sens.auto⟩ ⟨100, 1, fun _ => [], fun _ => false⟩ =
      some (some 10, [0, 10, 20, 30, 40, 50, 60, 70, 80, 90, 100]) ∧
    ¬ List.Chain'
        (fun a b => a ≠ 0 → b ≠ ((100 : ℕ) : ℤ) →
          effMinDist ⟨some 50, Sens.auto⟩ ⟨100, 1, fun _ => [], fun _ => false⟩ < b - a)
        [0, 10, 20, 30, 40, 50, 60, 70, 80, 90, 100] := by
  constructor
  · decide
  · intro hc
    have h12 := (List.chain'_cons.mp (List.chain'_cons.mp hc).2).1
    have hlt := h12 (by decide) (by decide)
    rw [show effMinDist ⟨some 50, Sens.auto⟩
      ⟨100, 1, fun _ => [], fun _ => false⟩ = 50 from rfl] at hlt
    omega

/-- C3 (amended): whenever the separators were produced by the
detection passes (methods 1 and 2 yielded at least 2 separators, so
the uniform-grid fallback is not taken), every pair of adjacent
separators not involving the synthetic endpoints 0 and height differs
by more than the configured or sensitivity-derived minimum
distance. -/
theorem interior_gaps_exceed_min_distance (st : Option ℤ) (cfg : DetectConfig)
    (img : ImageData) (st2 : Option ℤ) (seps : List ℤ)
    (h : detect_frames st cfg img = some (st2, seps))
    (hlen : 2 ≤ (method12 cfg img).length) :
    List.Chain'
      (fun a b => a ≠ 0 → b ≠ (img.height : ℤ) → effMinDist cfg img < b - a) seps := by
  unfold detect_frames at h
  by_cases hg : img.height = 0 ∨ img.width = 0
  · rw [if_pos hg] at h
    exact absurd h (by simp)
  rw [if_neg hg, if_neg (by omega)] at h
  injection h with hpair
  injection hpair with h1 h2
  subst h2
  have hh : 1 ≤ img.height := by omega
  rw [normalizeSeps_shape _ _ hh (method12_bounds cfg img)]
  rw [show (0 : ℤ) :: (method12 cfg img ++ [(img.height : ℤ)]) =
    ((0 : ℤ) :: method12 cfg img) ++ [(img.height : ℤ)] by simp]
  rw [List.chain'_append]
  refine ⟨?_, List.chain'_singleton _, ?_⟩
  · cases hm : method12 cfg img with
    | nil => exact List.chain'_singleton _
    | cons a as =>
        refine List.Chain'.cons ?_ ?_
        · intro h0
          exact absurd rfl h0
        · have := method12_gaps cfg img
          rw [hm] at this
          exact this.imp (fun a b hab _ _ => hab)
  · intro x hx y hy
    simp only [List.head?_cons, Option.mem_def, Option.some.injEq] at hy
    subst hy
    intro _ hyH
    exact absurd rfl hyH

/-- C3 witness: the amended theorem applied to a 600 x 1000 image
whose Hough pass reports lines at 100 and 300 (medium sensitivity,
derived minimum distance 100), yielding [0, 100, 300, 1000]. -/
theorem interior_gaps_exceed_min_distance_witness :
    List.Chain'
      (fun a b => a ≠ 0 →
        b ≠ ((⟨1000, 600, fun _ => [100, 300], fun _ => false⟩ : ImageData).height : ℤ) →
        effMinDist ⟨none, Sens.auto⟩ ⟨1000, 600, fun _ => [100, 300], fun _ => false⟩ < b - a)
      [0, 100, 300, 1000] :=
  interior_gaps_exceed_min_distance none ⟨none, Sens.auto⟩
    ⟨1000, 600, fun _ => [100, 300], fun _ => false⟩ none [0, 100, 300, 1000]
    (by decide) (by decide)

/-! Helper lemmas about the content boundary trimmer. -/

theorem trimAxis_facts (t b size : ℕ) (hs : 1 ≤ size) :
    (trimAxis t b size).1 < (trimAxis t b size).2 ∧
    6 * size ≤ 10 * ((trimAxis t b size).2 - (trimAxis t b size).1) := by
  unfold trimAxis
  split
  · dsimp only
    omega
  · rename_i hng
    dsimp only
    omega

theorem trimAxis_snd_le (t b size : ℕ) (hb : b ≤ size) :
    (trimAxis t b size).2 ≤ size := by
  unfold trimAxis
  split
  · dsimp only
    exact le_refl size
  · dsimp only
    exact hb

theorem scanHigh_le (sums : List ℕ) (pct maxS size : ℕ) :
    scanHigh sums pct maxS size ≤ size := by
  unfold scanHigh
  split
  · exact min_le_left _ _
  · exact le_refl _

theorem rawBoundaries_le (g : List (List ℕ)) :
    (rawBoundaries g).2.1 ≤ g.length ∧ (rawBoundaries g).2.2.2 ≤ gridW g :=
  ⟨scanHigh_le _ _ _ _, scanHigh_le _ _ _ _⟩

theorem dcb_facts (g : List (List ℕ)) (hh : 1 ≤ g.length) (hw : 1 ≤ gridW g) :
    (detect_content_boundaries g).1 < (detect_content_boundaries g).2.1 ∧
    (detect_content_boundaries g).2.1 ≤ g.length ∧
    (detect_content_boundaries g).2.2.1 < (detect_content_boundaries g).2.2.2 ∧
    (detect_content_boundaries g).2.2.2 ≤ gridW g ∧
    6 * g.length ≤ 10 * ((detect_content_boundaries g).2.1 - (detect_content_boundaries g).1) ∧
    6 * gridW g ≤
      10 * ((detect_content_boundaries g).2.2.2 - (detect_content_boundaries g).2.2.1) := by
  simp only [detect_content_boundaries]
  split
  · dsimp only
    omega
  · have hr := rawBoundaries_le g
    have h1 := trimAxis_facts (rawBoundaries g).1 (rawBoundaries g).2.1 g.length hh
    have h2 := trimAxis_facts (rawBoundaries g).2.2.1 (rawBoundaries g).2.2.2 (gridW g) hw
    have h3 := trimAxis_snd_le (rawBoundaries g).1 (rawBoundaries g).2.1 g.length hr.1
    have h4 := trimAxis_snd_le (rawBoundaries g).2.2.1 (rawBoundaries g).2.2.2 (gridW g) hr.2
    exact ⟨h1.1, h3, h2.1, h4, h1.2, h2.2⟩

/-- C2: on every nonempty region, detect_content_boundaries returns
top < bottom and left < right with bottom - top at least 0.6 of the
height and right - left at least 0.6 of the width (written
cross-multiplied: 6 * H <= 10 * (bottom - top)), so it never removes
more than 40 percent of either dimension; and whenever the raw
scanned rectangle is degenerate (bottom <= top or right <= left) it
returns the full region (0, H, 0, W). -/
theorem content_trim_keeps_60_percent (g : List (List ℕ))
    (hh : 1 ≤ g.length) (hw : 1 ≤ gridW g) :
    (detect_content_boundaries g).1 < (detect_content_boundaries g).2.1 ∧
    6 * g.length ≤ 10 * ((detect_content_boundaries g).2.1 - (detect_content_boundaries g).1) ∧
    (detect_content_boundaries g).2.2.1 < (detect_content_boundaries g).2.2.2 ∧
    6 * gridW g ≤
      10 * ((detect_content_boundaries g).2.2.2 - (detect_content_boundaries g).2.2.1) ∧
    ((rawBoundaries g).2.1 ≤ (rawBoundaries g).1 ∨
        (rawBoundaries g).2.2.2 ≤ (rawBoundaries g).2.2.1 →
      detect_content_boundaries g = (0, g.length, 0, gridW g)) := by
  have hf := dcb_facts g hh hw
  refine ⟨hf.1, hf.2.2.2.2.1, hf.2.2.1, hf.2.2.2.2.2, ?_⟩
  intro hdeg
  simp only [detect_content_boundaries]
  rw [if_pos hdeg]

/-- C2 witness: the trim theorem applied to the concrete one-pixel
region [[1]], for which the returned rectangle is the full
(0, 1, 0, 1). -/
theorem content_trim_keeps_60_percent_witness :
    (detect_content_boundaries [[1]]).1 < (detect_content_boundaries [[1]]).2.1 ∧
    6 * ([[1]] : List (List ℕ)).length ≤
      10 * ((detect_content_boundaries [[1]]).2.1 - (detect_content_boundaries [[1]]).1) ∧
    (detect_content_boundaries [[1]]).2.2.1 < (detect_content_boundaries [[1]]).2.2.2 ∧
    6 * gridW [[1]] ≤
      10 * ((detect_content_boundaries [[1]]).2.2.2 - (detect_content_boundaries [[1]]).2.2.1) ∧
    ((rawBoundaries [[1]]).2.1 ≤ (rawBoundaries [[1]]).1 ∨
        (rawBoundaries [[1]]).2.2.2 ≤ (rawBoundaries [[1]]).2.2.1 →
      detect_content_boundaries [[1]] = (0, ([[1]] : List (List ℕ)).length, 0, gridW [[1]])) :=
  content_trim_keeps_60_percent [[1]] (by decide) (by decide)

/-! Helper lemma about one band of the frame extractor. -/

theorem processBand_bounds (image : List (List ℕ)) (y1 y2 : ℕ) (f : List (List ℕ))
    (h : processBand image y1 y2 = some f) :
    (roughBand image y1 y2).length ≤ 5 * f.length ∧
    gridW (roughBand image y1 y2) ≤ 5 * gridW f ∧
    (f = contentCrop (roughBand image y1 y2) ∨ f = roughBand image y1 y2) := by
  simp only [processBand] at h
  split at h
  · split at h
    · split at h
      · split at h
        · rename_i hguard
          injection h with h1
          subst h1
          exact ⟨le_of_lt hguard.1, le_of_lt hguard.2, Or.inl rfl⟩
        · injection h with h1
          subst h1
          exact ⟨by omega, by omega, Or.inr rfl⟩
      · injection h with h1
        subst h1
        exact ⟨by omega, by omega, Or.inr rfl⟩
    · exact absurd h (by simp)
  · exact absurd h (by simp)

/-- C4: every frame in the output of extract_frames comes from one
consecutive separator pair, and is never smaller than 0.2 of its
rough-crop band in either axis (written cross-multiplied:
rough <= 5 * frame); it is either the content-trimmed crop of the
rough band (kept when the trim retains more than 20 percent of each
rough dimension) or the untrimmed rough band itself. -/
theorem extract_frames_min_dims (image : List (List ℕ)) (seps : List ℕ)
    (f : List (List ℕ)) (hmem : f ∈ extract_frames image seps) :
    ∃ y1 y2, (y1, y2) ∈ seps.zip seps.tail ∧ processBand image y1 y2 = some f ∧
      (roughBand image y1 y2).length ≤ 5 * f.length ∧
      gridW (roughBand image y1 y2) ≤ 5 * gridW f ∧
      (f = contentCrop (roughBand image y1 y2) ∨ f = roughBand image y1 y2) := by
  unfold extract_frames at hmem
  obtain ⟨p, hp, heq⟩ := List.mem_filterMap.mp hmem
  obtain ⟨y1, y2⟩ := p
  have hb := processBand_bounds image y1 y2 f heq
  exact ⟨y1, y2, hp, heq, hb.1, hb.2.1, hb.2.2⟩

set_option maxRecDepth 8000 in
/-- C4 witness: the extractor theorem applied to a concrete 2 x 46
all-bright strip with separators [0, 46], producing one 1 x 44 frame
that keeps the full rough band. -/
theorem extract_frames_min_dims_witness :
    (roughBand (List.replicate 46 (List.replicate 2 1)) 0 46).length ≤
      5 * (List.replicate 44 [1] : List (List ℕ)).length := by
  obtain ⟨y1, y2, hmem, hpb, hb1, hb2, hor⟩ :=
    extract_frames_min_dims (List.replicate 46 (List.replicate 2 1)) [0, 46]
      (List.replicate 44 [1]) (by decide)
  have hy : y1 = 0 ∧ y2 = 46 := by simpa using hmem
  obtain ⟨hy1, hy2⟩ := hy
  subst hy1
  subst hy2
  exact hb1

/-- C5: create_video on an empty frame list returns the failure value
False without constructing a video writer and without writing any
frame. -/
theorem create_video_empty_no_io (fps : ℕ) :
    (create_video [] fps).result = some false ∧
    (create_video [] fps).opened = none ∧
    (create_video [] fps).writes = [] :=
  ⟨rfl, rfl, rfl⟩

/-- C6 evaluation: on frame shapes [(1, 1000), (1000, 1)] the writer
is constructed with target size 500 x 500, processing the first frame
raises in cv2.resize (its resized height is int(1 * 500/1000) = 0),
the loop aborts with no frame written, and out.release() never runs:
the source has no try/finally, so the claim that the writer is
released on every path that opens it is violated by the code. -/
theorem create_video_leaks_writer_on_error :
    (create_video [(1, 1000), (1000, 1)] 12).opened = some (500, 500) ∧
    (create_video [(1, 1000), (1000, 1)] 12).result = none ∧
    (create_video [(1, 1000), (1000, 1)] 12).released = false ∧
    (create_video [(1, 1000), (1000, 1)] 12).writes = [] := by
  decide

/-! Helper lemmas about video geometry. -/

theorem resizedDims_le (tw th h w : ℕ) (hh : h ≠ 0) (hw : w ≠ 0) :
    (resizedDims tw th h w).1 ≤ tw ∧ (resizedDims tw th h w).2 ≤ th := by
  unfold resizedDims
  split
  · rename_i hc
    dsimp only
    refine ⟨le_refl tw, ?_⟩
    calc h * tw / w ≤ th * w / w := by
          apply Nat.div_le_div_right
          calc h * tw = tw * h := Nat.mul_comm h tw
            _ ≤ th * w := hc
      _ = th := Nat.mul_div_cancel th (Nat.pos_of_ne_zero hw)
  · rename_i hc
    dsimp only
    refine ⟨?_, le_refl th⟩
    have hlt : w * th < tw * h := by
      have := Nat.lt_of_not_le hc
      calc w * th = th * w := Nat.mul_comm w th
        _ < tw * h := this
    exact le_of_lt ((Nat.div_lt_iff_lt_mul (Nat.pos_of_ne_zero hh)).mpr hlt)

theorem processFrames_writes (tw th : ℕ) (l : List (ℕ × ℕ)) :
    ∀ e ∈ (processFrames tw th l).1,
      e.1 ≤ tw ∧ e.2.1 ≤ th ∧ e.2.2.1 = (tw - e.1) / 2 ∧ e.2.2.2 = (th - e.2.1) / 2 := by
  induction l with
  | nil =>
      intro e he
      simp [processFrames] at he
  | cons fr rest ih =>
      obtain ⟨h, w⟩ := fr
      intro e he
      simp only [processFrames] at he
      split at he
      · simp at he
      · split at he
        · simp at he
        · rename_i hz hnz
          rcases List.mem_cons.mp he with rfl | he2
          · have hle := resizedDims_le tw th h w
              (fun hc => hz (Or.inl hc)) (fun hc => hz (Or.inr hc))
            exact ⟨hle.1, hle.2, rfl, rfl⟩
          · exact ih e he2

theorem targetDim_facts (l : List ℕ) :
    targetDim l % 2 = 0 ∧ npMedianTwice l / 2 ≤ targetDim l ∧
    targetDim l ≤ npMedianTwice l / 2 + 1 := by
  simp only [targetDim]
  split
  · omega
  · omega

theorem floor_npMedian (l : List ℕ) : ⌊npMedian l⌋ = ((npMedianTwice l / 2 : ℕ) : ℤ) := by
  unfold npMedian
  rw [show (2 : ℚ) = ((2 : ℕ) : ℚ) by norm_num, Rat.floor_natCast_div_natCast]
  exact (Int.natCast_div _ _).symm

/-- C7 (corrected) counterexample: for two frames of shapes
(200, 4) and (200, 5), the widths have median 4.5; the source
truncates it to 4 (already even), so the writer is constructed with
width 4, while the median rounded up to the nearest even number, as
the claim words it, is 6.  The stated rounding rule is therefore
false for half-integer medians. -/
theorem create_video_median_truncation :
    (create_video [(200, 4), (200, 5)] 12).opened = some (4, 200) ∧
    specRoundUpEven (npMedian [4, 5]) = 6 ∧
    ((4 : ℤ) ≠ specRoundUpEven (npMedian [4, 5])) := by
  have hm : npMedianTwice [4, 5] = 9 := by decide
  have hmed : specRoundUpEven (npMedian [4, 5]) = 6 := by
    unfold specRoundUpEven npMedian
    rw [hm]
    rw [show ((9 : ℕ) : ℚ) / 2 / 2 = (9 : ℚ) / 4 by norm_num]
    have hc : ⌈(9 : ℚ) / 4⌉ = 3 := by
      rw [Int.ceil_eq_iff]
      norm_num
    rw [hc]
    norm_num
  refine ⟨by decide, hmed, by rw [hmed]; decide⟩

/-- C7 (amended): for every nonempty frame list, the video writer is
constructed with the target size computed per axis as the int
truncation of the median raised to even (even, and within one of the
floor of the median); and every written canvas geometry is in bounds:
the resized dimensions are at most the target dimensions, the
centering offsets are the Python (target - new) // 2, and offset plus
resized size never exceeds the target, so the resized frame is pasted
centered with no cropping on the exactly target-sized canvas. -/
theorem create_video_geometry (frames : List (ℕ × ℕ)) (fps : ℕ) (hne : frames ≠ []) :
    (create_video frames fps).opened =
      some (targetDim (frames.map Prod.snd), targetDim (frames.map Prod.fst)) ∧
    targetDim (frames.map Prod.snd) % 2 = 0 ∧
    targetDim (frames.map Prod.fst) % 2 = 0 ∧
    ((⌊npMedian (frames.map Prod.snd)⌋).toNat ≤ targetDim (frames.map Prod.snd) ∧
      targetDim (frames.map Prod.snd) ≤ (⌊npMedian (frames.map Prod.snd)⌋).toNat + 1) ∧
    ((⌊npMedian (frames.map Prod.fst)⌋).toNat ≤ targetDim (frames.map Prod.fst) ∧
      targetDim (frames.map Prod.fst) ≤ (⌊npMedian (frames.map Prod.fst)⌋).toNat + 1) ∧
    ∀ e ∈ (create_video frames fps).writes,
      e.1 ≤ targetDim (frames.map Prod.snd) ∧
      e.2.1 ≤ targetDim (frames.map Prod.fst) ∧
      e.2.2.1 = (targetDim (frames.map Prod.snd) - e.1) / 2 ∧
      e.2.2.2 = (targetDim (frames.map Prod.fst) - e.2.1) / 2 ∧
      e.1 + e.2.2.1 ≤ targetDim (frames.map Prod.snd) ∧
      e.2.1 + e.2.2.2 ≤ targetDim (frames.map Prod.fst) := by
  have hne' : frames.isEmpty = false := by
    cases frames with
    | nil => exact absurd rfl hne
    | cons a l => rfl
  have htd1 := targetDim_facts (frames.map Prod.snd)
  have htd2 := targetDim_facts (frames.map Prod.fst)
  have hfl1 := floor_npMedian (frames.map Prod.snd)
  have hfl2 := floor_npMedian (frames.map Prod.fst)
  have hwr : (create_video frames fps).writes =
      (processFrames (targetDim (frames.map Prod.snd))
        (targetDim (frames.map Prod.fst)) frames).1 := by
    simp [create_video, hne']
  refine ⟨by simp [create_video, hne'], htd1.1, htd2.1, ?_, ?_, ?_⟩
  · rw [hfl1, Int.toNat_natCast]
    exact ⟨htd1.2.1, htd1.2.2⟩
  · rw [hfl2, Int.toNat_natCast]
    exact ⟨htd2.2.1, htd2.2.2⟩
  · intro e he
    rw [hwr] at he
    have hb := processFrames_writes _ _ frames e he
    refine ⟨hb.1, hb.2.1, hb.2.2.1, hb.2.2.2, ?_, ?_⟩
    · have := hb.1
      have := hb.2.2.1
      omega
    · have := hb.2.1
      have := hb.2.2.2
      omega

/-- C7 witness: the geometry theorem applied to the single concrete
frame of shape (2, 2), which is written unscaled and uncentered on a
2 x 2 canvas. -/
theorem create_video_geometry_witness :
    (create_video [(2, 2)] 12).opened = some (targetDim [2], targetDim [2]) ∧
    targetDim [2] % 2 = 0 := by
  have hg := create_video_geometry [(2, 2)] 12 (by decide)
  exact ⟨hg.1, hg.2.1⟩

/-- C10: whenever the file list matched by the input pattern is
nonempty, process_multiple_images returns True regardless of what the
per-image processing returns, and it threads the processor state
through every matched file (no per-image failure aborts the loop or
is reflected in the batch result). -/
theorem process_multiple_images_true_on_nonempty {σ α : Type}
    (processOne : σ → α → σ × Bool) (st : σ) (files : List α) (hne : files ≠ []) :
    (process_multiple_images processOne st files).2 = true ∧
    (process_multiple_images processOne st files).1 =
      files.foldl (fun s f => (processOne s f).1) st := by
  have hne' : files.isEmpty = false := by
    cases files with
    | nil => exact absurd rfl hne
    | cons a l => rfl
  simp [process_multiple_images, hne']

/-- C10 witness: the batch theorem applied to a single file with a
processing function that always reports per-image failure; the batch
result is still True. -/
theorem process_multiple_images_true_on_nonempty_witness :
    (process_multiple_images (fun (s : Unit) (_ : Unit) => (s, false)) () [()]).2 = true ∧
    (process_multiple_images (fun (s : Unit) (_ : Unit) => (s, false)) () [()]).1 =
      [()].foldl (fun s f => ((fun (s : Unit) (_ : Unit) => (s, false)) s f).1) () :=
  process_multiple_images_true_on_nonempty (fun (s : Unit) (_ : Unit) => (s, false)) () [()]
    (by simp)

end LomoKino
